import Mathlib

/-!
# Verification of the PCA pipeline (`src/main.rs`)

Shallow embedding of the three functions of the repository:

* `read_csv`   — parses CSV records into a feature matrix and a target vector;
* `perform_pca` — validates the input matrix, hands it to the smartcore
  decomposition primitive (`PCA::fit` / `transform` with `n_components = 2`),
  and reshapes the result;
* `plot_pca_results` — computes axis bounds from the projected columns and
  draws one colored point per sample.

Real numbers (`f64` in the source) are modelled by `ℚ`; the special values
`f64::INFINITY` / `f64::NEG_INFINITY` that seed the min/max folds of the
renderer are modelled by `⊤ : WithTop ℚ` / `⊥ : WithBot ℚ`.  The smartcore
decomposition (an external crate, treated by the design as a black-box
primitive) is a parameter `Primitive`; `f64` string parsing (Rust stdlib)
is a parameter `parse : String → Option ℚ`, with `none` modelling a parse
error (which the source `unwrap`s, i.e. panics on).  Panics are modelled
explicitly where they can occur.
-/

namespace PCAPipeline

/-- Abstract model of the external smartcore decomposition primitive.
`fit nsamples nfeatures flat` models `PCA::fit` on the `DenseMatrix` built
from the row-major flattening `flat` of the data (`Except.error` models the
`Err` case propagated by `?`); `transform` models `pca.transform` on the
fitted model, returning the projected matrix as a total lookup function
modelling `result.get((i, j))`. -/
structure Primitive where
  M : Type
  fit : Nat → Nat → List ℚ → Except String M
  transform : M → Nat → Nat → List ℚ → Except String (Nat → Nat → ℚ)

/-- The number of features the source reads off the first row:
`let n_features = data[0].len();` (only evaluated on non-empty data). -/
def n_features (data : List (List ℚ)) : Nat :=
  data.headI.length

/-- The source's rectangularity check:
`data.iter().all(|row| row.len() == n_features)`. -/
def all_rows_match (data : List (List ℚ)) : Bool :=
  data.all (fun row => row.length == n_features data)

/-- The row-major flattening the source builds:
`data.iter().flatten().cloned().collect()`. -/
def flat_data (data : List (List ℚ)) : List ℚ :=
  data.flatten

/-- Model of `perform_pca` from `src/main.rs`, parameterized by the
decomposition primitive `P` (smartcore).  Mirrors the source line by line:
empty check, rectangularity check, matrix construction + `PCA::fit` with
`n_components = 2`, `transform`, and the reshape loop
`for i in 0..n_samples { for j in 0..2 { row.push(*result.get((i, j))) } }`. -/
def perform_pca (P : Primitive) (data : List (List ℚ)) :
    Except String (List (List ℚ)) :=
  if data.isEmpty then
    Except.error "No data provided"
  else if !all_rows_match data then
    Except.error "Inconsistent number of features in data"
  else
    match P.fit data.length (n_features data) (flat_data data) with
    | Except.error e => Except.error e
    | Except.ok model =>
      match P.transform model data.length (n_features data) (flat_data data) with
      | Except.error e => Except.error e
      | Except.ok result =>
        Except.ok ((List.range data.length).map (fun i =>
          (List.range 2).map (fun j => result i j)))

/-- `true` iff control in `perform_pca` gets past both validation checks and
reaches the decomposition primitive (`PCA::fit`). -/
def invokes_decomposition (data : List (List ℚ)) : Bool :=
  !data.isEmpty && all_rows_match data

/-- The part of `perform_pca` after validation: matrix construction, fit,
transform, reshape. -/
def decomposition_path (P : Primitive) (data : List (List ℚ)) :
    Except String (List (List ℚ)) :=
  match P.fit data.length (n_features data) (flat_data data) with
  | Except.error e => Except.error e
  | Except.ok model =>
    match P.transform model data.length (n_features data) (flat_data data) with
    | Except.error e => Except.error e
    | Except.ok result =>
      Except.ok ((List.range data.length).map (fun i =>
        (List.range 2).map (fun j => result i j)))

/-- Rectangularity as the spec words it: every pair of rows has the same
length. -/
def rectangularSpec (data : List (List ℚ)) : Prop :=
  ∀ r ∈ data, ∀ r' ∈ data, r.length = r'.length

instance (data : List (List ℚ)) : Decidable (rectangularSpec data) := by
  unfold rectangularSpec
  infer_instance

/-- A trivial concrete primitive (fit always succeeds, transform returns the
all-zero lookup); used to instantiate theorems quantified over the
primitive. -/
def okPrim : Primitive where
  M := Unit
  fit := fun _ _ _ => Except.ok ()
  transform := fun _ _ _ _ => Except.ok (fun _ _ => 0)

theorem invokes_decomposition_eq_true (data : List (List ℚ))
    (hne : data ≠ []) (hall : all_rows_match data = true) :
    invokes_decomposition data = true := by
  simp [invokes_decomposition, hall, List.isEmpty_iff, hne]

theorem perform_pca_of_invokes (P : Primitive) (data : List (List ℚ))
    (h : invokes_decomposition data = true) :
    perform_pca P data = decomposition_path P data := by
  simp only [invokes_decomposition, Bool.and_eq_true, Bool.not_eq_true'] at h
  simp [perform_pca, decomposition_path, h.1, h.2]

theorem rectangularSpec_iff_all_rows_match (data : List (List ℚ))
    (hne : data ≠ []) :
    rectangularSpec data ↔ all_rows_match data = true := by
  cases data with
  | nil => exact absurd rfl hne
  | cons r rs =>
    simp only [rectangularSpec, all_rows_match, n_features, List.headI,
      List.all_eq_true, beq_iff_eq]
    constructor
    · intro h row hrow
      exact h row hrow r (List.mem_cons_self r rs)
    · intro h row hrow row' hrow'
      rw [h row hrow, h row' hrow']

/-- C3: on the empty input matrix `perform_pca` returns the `Err` value
`"No data provided"` for every decomposition primitive, and control never
reaches the decomposition (no computation, no partial result). -/
theorem perform_pca_empty_is_error (P : Primitive) :
    perform_pca P [] = Except.error "No data provided" ∧
      invokes_decomposition ([] : List (List ℚ)) = false :=
  ⟨rfl, rfl⟩

theorem perform_pca_empty_is_error_witness :
    perform_pca okPrim [] = Except.error "No data provided" :=
  (perform_pca_empty_is_error okPrim).1

/-- C4: for every non-empty ragged input (two rows of different lengths)
`perform_pca` returns the `"Inconsistent number of features in data"` error
without reaching matrix construction or the decomposition, and for every
rectangular input this check passes (control reaches the decomposition). -/
theorem perform_pca_ragged_check (P : Primitive) (data : List (List ℚ))
    (hne : data ≠ []) :
    (¬ rectangularSpec data →
        perform_pca P data = Except.error "Inconsistent number of features in data" ∧
          invokes_decomposition data = false) ∧
    (rectangularSpec data →
        invokes_decomposition data = true ∧
          perform_pca P data = decomposition_path P data) := by
  have hisEmpty : data.isEmpty = false := by
    simp [List.isEmpty_iff, hne]
  constructor
  · intro hragged
    have hall : all_rows_match data = false := by
      rw [← Bool.not_eq_true, ← rectangularSpec_iff_all_rows_match data hne]
      exact hragged
    constructor
    · simp [perform_pca, hisEmpty, hall]
    · simp [invokes_decomposition, hisEmpty, hall]
  · intro hrect
    have hall : all_rows_match data = true :=
      (rectangularSpec_iff_all_rows_match data hne).mp hrect
    have hinv : invokes_decomposition data = true :=
      invokes_decomposition_eq_true data hne hall
    exact ⟨hinv, perform_pca_of_invokes P data hinv⟩

theorem perform_pca_ragged_check_witness :
    perform_pca okPrim [[(1 : ℚ), 2], [3]] =
      Except.error "Inconsistent number of features in data" :=
  ((perform_pca_ragged_check okPrim [[(1 : ℚ), 2], [3]] (by decide)).1
    (by decide)).1

/-- C1 (counterexample): on the non-empty rectangular matrix `[[1], [2]]`,
whose rows have 1 < 2 features, `perform_pca` does not fail with an input
validation error: both checks pass, the decomposition primitive is invoked,
and under a primitive whose fit succeeds the call even returns `Ok`. -/
theorem perform_pca_no_k_check_counterexample :
    ([[(1 : ℚ)], [2]] : List (List ℚ)) ≠ [] ∧
    rectangularSpec [[(1 : ℚ)], [2]] ∧
    n_features [[(1 : ℚ)], [2]] = 1 ∧
    invokes_decomposition [[(1 : ℚ)], [2]] = true ∧
    perform_pca okPrim [[(1 : ℚ)], [2]] = Except.ok [[0, 0], [0, 0]] :=
  ⟨by decide, by decide, rfl, rfl, rfl⟩

/-- C1 (amended): `perform_pca` performs no k-range check of its own: for
every non-empty rectangular matrix, of any feature count (including fewer
than 2), both validation checks pass and the call proceeds to the
decomposition primitive with `n_components = 2`; any k-outside-range error
can only come from the primitive, not from `perform_pca`'s validation. -/
theorem perform_pca_no_k_range_check (P : Primitive) (data : List (List ℚ))
    (hne : data ≠ []) (hrect : rectangularSpec data) :
    invokes_decomposition data = true ∧
      perform_pca P data = decomposition_path P data :=
  (perform_pca_ragged_check P data hne).2 hrect

theorem perform_pca_no_k_range_check_witness :
    invokes_decomposition [[(1 : ℚ)], [2]] = true ∧
      perform_pca okPrim [[(1 : ℚ)], [2]] =
        decomposition_path okPrim [[(1 : ℚ)], [2]] :=
  perform_pca_no_k_range_check okPrim [[(1 : ℚ)], [2]] (by decide) (by decide)

/-- C2: `perform_pca` has no `n_samples < 2` check: the single-row matrix
`[[1, 2]]` passes both validation checks, is handed to the decomposition
primitive, and under a primitive whose fit succeeds the call returns `Ok`
instead of the `InvalidInput` error the claim requires. -/
theorem perform_pca_single_row_reaches_decomposition :
    invokes_decomposition [[(1 : ℚ), 2]] = true ∧
    perform_pca okPrim [[(1 : ℚ), 2]] = Except.ok [[0, 0]] :=
  ⟨rfl, rfl⟩

/-- C5: whenever `perform_pca` succeeds, the projected matrix has exactly
`n_samples` rows (one row per input sample index, built in order by the
reshape loop) and every row has exactly 2 entries. -/
theorem perform_pca_ok_shape (P : Primitive) (data out : List (List ℚ))
    (h : perform_pca P data = Except.ok out) :
    out.length = data.length ∧ ∀ row ∈ out, row.length = 2 := by
  rw [perform_pca] at h
  split at h
  · exact absurd h (by simp)
  · split at h
    · exact absurd h (by simp)
    · split at h
      · exact absurd h (by simp)
      · split at h
        · exact absurd h (by simp)
        · rw [Except.ok.injEq] at h
          subst h
          constructor
          · simp
          · intro row hrow
            rw [List.mem_map] at hrow
            obtain ⟨i, _, hi⟩ := hrow
            rw [← hi]
            simp

theorem perform_pca_ok_shape_witness :
    ([[(0 : ℚ), 0], [0, 0]] : List (List ℚ)).length =
        ([[(1 : ℚ), 2], [3, 4]] : List (List ℚ)).length ∧
      ∀ row ∈ ([[(0 : ℚ), 0], [0, 0]] : List (List ℚ)), row.length = 2 :=
  perform_pca_ok_shape okPrim [[(1 : ℚ), 2], [3, 4]] [[0, 0], [0, 0]] rfl

/-- C6: `perform_pca` is modelled as a pure function of the decomposition
primitive and the input matrix alone (the Rust function reads and writes no
global state); in particular any two calls on equal inputs return equal
results. -/
theorem perform_pca_deterministic (P : Primitive) (d₁ d₂ : List (List ℚ))
    (h : d₁ = d₂) : perform_pca P d₁ = perform_pca P d₂ := by
  rw [h]

theorem perform_pca_deterministic_witness :
    perform_pca okPrim [[(1 : ℚ), 2], [3, 4]] =
      perform_pca okPrim [[(1 : ℚ), 2], [3, 4]] :=
  perform_pca_deterministic okPrim _ _ rfl

/-- Outcome of `read_csv`: `panicked` models a Rust panic (the `unwrap`s on
number parsing, and the record index when a record is empty), `error` models
the `Err` branch of the returned `Result` (file open via `from_path(..)?`
and record iteration via `let record = result?;`), and `ok data targets`
models `Ok((data, targets))`. -/
inductive CsvResult where
  | panicked : CsvResult
  | error : String → CsvResult
  | ok : List (List ℚ) → List ℚ → CsvResult
deriving DecidableEq

/-- Model of `record.iter().take(..).map(|s| s.parse().unwrap()).collect()`:
`none` when some field fails to parse (the `unwrap` panics). -/
def parseFields (parse : String → Option ℚ) : List String → Option (List ℚ)
  | [] => some []
  | s :: rest =>
    match parse s, parseFields parse rest with
    | some q, some qs => some (q :: qs)
    | _, _ => none

/-- Model of the body of the record loop of `read_csv`: the first
`record.len() - 1` fields become the feature row and the field
`record[record.len() - 1]` becomes the target, each parsed with `unwrap`
(`none` models the panic; an empty record panics on the index). -/
def parseRecord (parse : String → Option ℚ) (record : List String) :
    Option (List ℚ × ℚ) :=
  match record.getLast? with
  | none => none
  | some lastField =>
    match parseFields parse (record.take (record.length - 1)),
        parse lastField with
    | some row, some target => some (row, target)
    | _, _ => none

/-- Model of the `for result in rdr.records()` loop of `read_csv`: each
iteration either yields a record or an iteration error (propagated by `?`);
each successfully parsed record pushes one feature row and one target. -/
def read_csvLoop (parse : String → Option ℚ) :
    List (Except String (List String)) → CsvResult
  | [] => CsvResult.ok [] []
  | Except.error e :: _ => CsvResult.error e
  | Except.ok record :: rest =>
    match parseRecord parse record with
    | none => CsvResult.panicked
    | some (row, target) =>
      match read_csvLoop parse rest with
      | CsvResult.ok data targets =>
          CsvResult.ok (row :: data) (target :: targets)
      | other => other

/-- Model of `read_csv` from `src/main.rs`, parameterized by the stdlib
float parser `parse`.  The `file` argument models the outcome of
`ReaderBuilder::new().has_headers(true).from_path(file_path)?`: an open
error, or the list of per-record iteration outcomes (header already
consumed). -/
def read_csv (parse : String → Option ℚ)
    (file : Except String (List (Except String (List String)))) : CsvResult :=
  match file with
  | Except.error e => CsvResult.error e
  | Except.ok records => read_csvLoop parse records

/-- `none` on a non-empty all-digit list gives its value; concrete decimal
digit strings, used to instantiate the abstract parser in witnesses. -/
def digitsToNat (cs : List Char) : Option Nat :=
  if cs ≠ [] ∧ cs.all Char.isDigit then
    some (cs.foldl (fun n c => 10 * n + (c.toNat - 48)) 0)
  else none

/-- Concrete instantiation of the stdlib `str::parse::<f64>` parameter,
restricted to unsigned decimal literals `digits` or `digits.digits`
(every other string is a parse error); only used to evaluate theorems at
concrete inputs. -/
def parseNum (s : String) : Option ℚ :=
  match s.toList.splitOn '.' with
  | [intPart] => (digitsToNat intPart).map (fun n => (n : ℚ))
  | [intPart, fracPart] =>
    match digitsToNat intPart, digitsToNat fracPart with
    | some n, some f =>
        some (mkRat (n * 10 ^ fracPart.length + f) (10 ^ fracPart.length))
    | _, _ => none
  | _ => none

theorem read_csvLoop_ok_lengths (parse : String → Option ℚ)
    (records : List (Except String (List String)))
    (data : List (List ℚ)) (targets : List ℚ)
    (h : read_csvLoop parse records = CsvResult.ok data targets) :
    data.length = records.length ∧ targets.length = records.length := by
  induction records generalizing data targets with
  | nil =>
    rw [read_csvLoop] at h
    cases h
    exact ⟨rfl, rfl⟩
  | cons r rest ih =>
    cases r with
    | error e => exact absurd h (by rw [read_csvLoop]; intro hc; cases hc)
    | ok record =>
      rw [read_csvLoop] at h
      cases hrec : parseRecord parse record with
      | none => rw [hrec] at h; cases h
      | some rowTarget =>
        rw [hrec] at h
        cases hrest : read_csvLoop parse rest with
        | panicked => rw [hrest] at h; cases h
        | error e => rw [hrest] at h; cases h
        | ok data' targets' =>
          rw [hrest] at h
          cases h
          obtain ⟨hd, ht⟩ := ih data' targets' hrest
          exact ⟨by simp [hd], by simp [ht]⟩

/-- C7: whenever `read_csv` succeeds, the feature matrix and the target
vector have the same length — both equal to the number of records, since
each record contributes exactly one feature row and one target. -/
theorem read_csv_parallel_outputs (parse : String → Option ℚ)
    (file : Except String (List (Except String (List String))))
    (data : List (List ℚ)) (targets : List ℚ)
    (h : read_csv parse file = CsvResult.ok data targets) :
    data.length = targets.length := by
  cases file with
  | error e => exact absurd h (by rw [read_csv]; intro hc; cases hc)
  | ok records =>
    rw [read_csv] at h
    obtain ⟨hd, ht⟩ := read_csvLoop_ok_lengths parse records data targets h
    rw [hd, ht]

theorem read_csv_parallel_outputs_witness :
    ([[(1 : ℚ)]] : List (List ℚ)).length = ([(2 : ℚ)] : List ℚ).length :=
  read_csv_parallel_outputs parseNum (Except.ok [Except.ok ["1", "2.0"]])
    [[1]] [2] (by decide)

/-- C10: a record with a non-numeric field makes `read_csv` panic (the
`unwrap` on the parse result) rather than return an `Err`; and the `Err`
branch of the result covers only file-open and record-iteration failures:
when the file opens and every iteration yields a record, `read_csv` never
returns an error value, whatever the parser does. -/
theorem read_csv_panics_on_nonnumeric :
    read_csv parseNum (Except.ok [Except.ok ["abc", "1.0"]]) =
        CsvResult.panicked ∧
    (∀ parse : String → Option ℚ,
      ∀ records : List (Except String (List String)),
        (∀ r ∈ records, r.isOk = true) →
          ∀ e, read_csvLoop parse records ≠ CsvResult.error e) ∧
    (∀ parse : String → Option ℚ, ∀ e,
        read_csv parse (Except.error e) = CsvResult.error e) := by
  refine ⟨by decide, ?_, fun parse e => rfl⟩
  intro parse records
  induction records with
  | nil =>
    intro _ e
    rw [read_csvLoop]
    intro hc
    cases hc
  | cons r rest ih =>
    intro hok e
    cases r with
    | error e' =>
      have hko := hok (Except.error e') (List.mem_cons_self _ _)
      simp [Except.isOk, Except.toBool] at hko
    | ok record =>
      rw [read_csvLoop]
      cases hrec : parseRecord parse record with
      | none => intro hc; cases hc
      | some rowTarget =>
        obtain ⟨row, target⟩ := rowTarget
        have ihrest := ih (fun r hr => hok r (List.mem_cons_of_mem _ hr))
        cases hrest : read_csvLoop parse rest with
        | panicked => intro hc; cases hc
        | error e2 => exact absurd hrest (ihrest e2)
        | ok data targets => intro hc; cases hc

theorem read_csv_panics_on_nonnumeric_witness :
    read_csvLoop parseNum [Except.ok ["1", "2"]] ≠ CsvResult.error "io" :=
  read_csv_panics_on_nonnumeric.2.1 parseNum [Except.ok ["1", "2"]]
    (by decide) "io"

/-- Model of `let x_min = projected_data.iter().map(|v| v[0])
.fold(f64::INFINITY, |a, b| a.min(b)) - 1.0;` — `f64::INFINITY` is
`⊤ : WithTop ℚ` and the trailing subtraction acts on the fold result
(`∞ - 1.0 = ∞` in `f64`, and `WithTop.map` leaves `⊤` fixed).
`v.getD 0 0` models `v[0]` (rows of the projected matrix have length 2). -/
def x_min (pd : List (List ℚ)) : WithTop ℚ :=
  ((pd.map (fun v => ((v.getD 0 0 : ℚ) : WithTop ℚ))).foldl min ⊤).map
    (fun a => a - 1)

/-- Model of `x_max`: fold of `max` over column 0 seeded with
`f64::NEG_INFINITY` (`⊥ : WithBot ℚ`), plus `1.0`. -/
def x_max (pd : List (List ℚ)) : WithBot ℚ :=
  ((pd.map (fun v => ((v.getD 0 0 : ℚ) : WithBot ℚ))).foldl max ⊥).map
    (fun a => a + 1)

/-- Model of `y_min`: as `x_min` but over `v[1]`. -/
def y_min (pd : List (List ℚ)) : WithTop ℚ :=
  ((pd.map (fun v => ((v.getD 1 0 : ℚ) : WithTop ℚ))).foldl min ⊤).map
    (fun a => a - 1)

/-- Model of `y_max`: as `x_max` but over `v[1]`. -/
def y_max (pd : List (List ℚ)) : WithBot ℚ :=
  ((pd.map (fun v => ((v.getD 1 0 : ℚ) : WithBot ℚ))).foldl max ⊥).map
    (fun a => a + 1)

theorem foldl_min_coe (l : List ℚ) (c : ℚ) :
    ∃ m : ℚ, (m = c ∨ m ∈ l) ∧ m ≤ c ∧ (∀ a ∈ l, m ≤ a) ∧
      (l.map (fun q : ℚ => (q : WithTop ℚ))).foldl min (c : WithTop ℚ) =
        (m : WithTop ℚ) := by
  induction l generalizing c with
  | nil => exact ⟨c, Or.inl rfl, le_refl c, by simp, rfl⟩
  | cons x xs ih =>
    obtain ⟨m, hmem, hle, hall, heq⟩ := ih (min c x)
    refine ⟨m, ?_, le_trans hle (min_le_left c x), ?_, ?_⟩
    · rcases hmem with h | h
      · rcases min_choice c x with hc | hc <;> rw [hc] at h
        · exact Or.inl h
        · exact Or.inr (h ▸ List.mem_cons_self x xs)
      · exact Or.inr (List.mem_cons_of_mem x h)
    · intro a ha
      rcases List.mem_cons.mp ha with rfl | ha
      · exact le_trans hle (min_le_right c a)
      · exact hall a ha
    · rw [List.map_cons, List.foldl_cons, ← WithTop.coe_min]
      exact heq

theorem foldl_min_top (l : List ℚ) (hne : l ≠ []) :
    ∃ m ∈ l, (∀ a ∈ l, m ≤ a) ∧
      (l.map (fun q : ℚ => (q : WithTop ℚ))).foldl min ⊤ = (m : WithTop ℚ) := by
  cases l with
  | nil => exact absurd rfl hne
  | cons x xs =>
    obtain ⟨m, hmem, hle, hall, heq⟩ := foldl_min_coe xs x
    refine ⟨m, ?_, ?_, ?_⟩
    · rcases hmem with rfl | h
      · exact List.mem_cons_self m xs
      · exact List.mem_cons_of_mem x h
    · intro a ha
      rcases List.mem_cons.mp ha with rfl | ha
      · exact hle
      · exact hall a ha
    · rw [List.map_cons, List.foldl_cons, min_eq_right le_top]
      exact heq

theorem foldl_max_coe (l : List ℚ) (c : ℚ) :
    ∃ m : ℚ, (m = c ∨ m ∈ l) ∧ c ≤ m ∧ (∀ a ∈ l, a ≤ m) ∧
      (l.map (fun q : ℚ => (q : WithBot ℚ))).foldl max (c : WithBot ℚ) =
        (m : WithBot ℚ) := by
  induction l generalizing c with
  | nil => exact ⟨c, Or.inl rfl, le_refl c, by simp, rfl⟩
  | cons x xs ih =>
    obtain ⟨m, hmem, hle, hall, heq⟩ := ih (max c x)
    refine ⟨m, ?_, le_trans (le_max_left c x) hle, ?_, ?_⟩
    · rcases hmem with h | h
      · rcases max_choice c x with hc | hc <;> rw [hc] at h
        · exact Or.inl h
        · exact Or.inr (h ▸ List.mem_cons_self x xs)
      · exact Or.inr (List.mem_cons_of_mem x h)
    · intro a ha
      rcases List.mem_cons.mp ha with rfl | ha
      · exact le_trans (le_max_right c a) hle
      · exact hall a ha
    · rw [List.map_cons, List.foldl_cons, ← WithBot.coe_max]
      exact heq

theorem foldl_max_bot (l : List ℚ) (hne : l ≠ []) :
    ∃ m ∈ l, (∀ a ∈ l, a ≤ m) ∧
      (l.map (fun q : ℚ => (q : WithBot ℚ))).foldl max ⊥ = (m : WithBot ℚ) := by
  cases l with
  | nil => exact absurd rfl hne
  | cons x xs =>
    obtain ⟨m, hmem, hle, hall, heq⟩ := foldl_max_coe xs x
    refine ⟨m, ?_, ?_, ?_⟩
    · rcases hmem with rfl | h
      · exact List.mem_cons_self m xs
      · exact List.mem_cons_of_mem x h
    · intro a ha
      rcases List.mem_cons.mp ha with rfl | ha
      · exact hle
      · exact hall a ha
    · rw [List.map_cons, List.foldl_cons, max_eq_right bot_le]
      exact heq

/-- C8: for every non-empty projected matrix (rows of length 2), each of the
four axis bounds of the renderer equals the true minimum (resp. maximum) of
the corresponding projected column shifted by the fixed margin of exactly 1
unit: `x` range `[min(col0) - 1, max(col0) + 1]`, `y` range
`[min(col1) - 1, max(col1) + 1]`. -/
theorem plot_bounds_min_max (pd : List (List ℚ)) (hne : pd ≠ [])
    (_hrow : ∀ row ∈ pd, row.length = 2) :
    (∃ m ∈ pd.map (fun v => v.getD 0 0),
        (∀ a ∈ pd.map (fun v => v.getD 0 0), m ≤ a) ∧
          x_min pd = ((m - 1 : ℚ) : WithTop ℚ)) ∧
    (∃ m ∈ pd.map (fun v => v.getD 0 0),
        (∀ a ∈ pd.map (fun v => v.getD 0 0), a ≤ m) ∧
          x_max pd = ((m + 1 : ℚ) : WithBot ℚ)) ∧
    (∃ m ∈ pd.map (fun v => v.getD 1 0),
        (∀ a ∈ pd.map (fun v => v.getD 1 0), m ≤ a) ∧
          y_min pd = ((m - 1 : ℚ) : WithTop ℚ)) ∧
    (∃ m ∈ pd.map (fun v => v.getD 1 0),
        (∀ a ∈ pd.map (fun v => v.getD 1 0), a ≤ m) ∧
          y_max pd = ((m + 1 : ℚ) : WithBot ℚ)) := by
  have hmapne : ∀ j : Nat, pd.map (fun v => v.getD j 0) ≠ [] := by
    intro j
    simp [hne]
  have hcomp : ∀ j : Nat,
      pd.map (fun v => ((v.getD j 0 : ℚ) : WithTop ℚ)) =
        (pd.map (fun v => v.getD j 0)).map (fun q : ℚ => (q : WithTop ℚ)) := by
    intro j
    rw [List.map_map]
    rfl
  have hcompB : ∀ j : Nat,
      pd.map (fun v => ((v.getD j 0 : ℚ) : WithBot ℚ)) =
        (pd.map (fun v => v.getD j 0)).map (fun q : ℚ => (q : WithBot ℚ)) := by
    intro j
    rw [List.map_map]
    rfl
  refine ⟨?_, ?_, ?_, ?_⟩
  · obtain ⟨m, hmem, hall, heq⟩ := foldl_min_top _ (hmapne 0)
    exact ⟨m, hmem, hall, by rw [x_min, hcomp 0, heq]; rfl⟩
  · obtain ⟨m, hmem, hall, heq⟩ := foldl_max_bot _ (hmapne 0)
    exact ⟨m, hmem, hall, by rw [x_max, hcompB 0, heq]; rfl⟩
  · obtain ⟨m, hmem, hall, heq⟩ := foldl_min_top _ (hmapne 1)
    exact ⟨m, hmem, hall, by rw [y_min, hcomp 1, heq]; rfl⟩
  · obtain ⟨m, hmem, hall, heq⟩ := foldl_max_bot _ (hmapne 1)
    exact ⟨m, hmem, hall, by rw [y_max, hcompB 1, heq]; rfl⟩

theorem plot_bounds_min_max_witness :
    ∃ m ∈ ([[(1 : ℚ), 2], [3, 4]] : List (List ℚ)).map (fun v => v.getD 0 0),
      (∀ a ∈ ([[(1 : ℚ), 2], [3, 4]] : List (List ℚ)).map
          (fun v => v.getD 0 0), m ≤ a) ∧
        x_min [[(1 : ℚ), 2], [3, 4]] = ((m - 1 : ℚ) : WithTop ℚ) :=
  (plot_bounds_min_max [[(1 : ℚ), 2], [3, 4]] (by decide) (by decide)).1

/-- The two colors the drawing loop can pick (`RED` / `BLUE`). -/
inductive PlotColor where
  | red : PlotColor
  | blue : PlotColor
deriving DecidableEq

/-- Model of the drawing loop of `plot_pca_results`: one circle per entry of
`projected_data` (via `.iter().enumerate()`), at `(point[0], point[1])`,
colored `RED` when `targets[i] == 1.0` and `BLUE` otherwise.
`targets.getD i 0` models `targets[i]` (the program keeps the two lists
parallel, so the index is in bounds). -/
def renderedPoints (pd : List (List ℚ)) (targets : List ℚ) :
    List ((ℚ × ℚ) × PlotColor) :=
  pd.enum.map (fun p =>
    ((p.2.getD 0 0, p.2.getD 1 0),
      if targets.getD p.1 0 = 1 then PlotColor.red else PlotColor.blue))

/-- C9: the renderer draws exactly one point per sample, and the `i`-th
point is red exactly when the `i`-th label equals 1 and blue exactly when
it does not. -/
theorem renderer_points (pd : List (List ℚ)) (targets : List ℚ)
    (_hlen : pd.length = targets.length) :
    (renderedPoints pd targets).length = pd.length ∧
    ∀ i, i < pd.length →
      (((renderedPoints pd targets).getD i
            (((0 : ℚ), (0 : ℚ)), PlotColor.blue)).2 = PlotColor.red ↔
          targets.getD i 0 = 1) ∧
      (((renderedPoints pd targets).getD i
            (((0 : ℚ), (0 : ℚ)), PlotColor.blue)).2 = PlotColor.blue ↔
          ¬ targets.getD i 0 = 1) := by
  constructor
  · simp [renderedPoints]
  · intro i hi
    have hienum : i < pd.enum.length := by
      rw [List.enum_length]
      exact hi
    have hmap : (renderedPoints pd targets).getD i
        (((0 : ℚ), (0 : ℚ)), PlotColor.blue) =
        ((((pd.enum.get ⟨i, hienum⟩).2.getD 0 0 : ℚ),
            ((pd.enum.get ⟨i, hienum⟩).2.getD 1 0 : ℚ)),
          if targets.getD (pd.enum.get ⟨i, hienum⟩).1 0 = 1 then
            PlotColor.red else PlotColor.blue) := by
      rw [renderedPoints, List.getD_eq_getElem?_getD, List.getElem?_map,
        List.getElem?_eq_getElem hienum]
      rfl
    have hfst : (pd.enum.get ⟨i, hienum⟩).1 = i := by
      exact congrArg Prod.fst (List.getElem_enum pd i hienum)
    rw [hmap, hfst]
    by_cases ht : targets.getD i 0 = 1
    · simp [ht]
    · simp [ht]

theorem renderer_points_witness :
    ((renderedPoints [[(1 : ℚ), 2], [3, 4]] [1, 0]).getD 0
        (((0 : ℚ), (0 : ℚ)), PlotColor.blue)).2 = PlotColor.red ↔
      ([(1 : ℚ), 0].getD 0 0 = 1) :=
  ((renderer_points [[(1 : ℚ), 2], [3, 4]] [1, 0] (by decide)).2 0
    (by decide)).1

end PCAPipeline
